import Mathlib

/-!
# Verification of the microswarm simulation core

Shallow embedding of the repository's two source files:

* `src/quadtree.rs` — the spatial index (`Rect`, `Point`, `QuadTreeNode`,
  `QuadTree`) with insertion and range query;
* `src/main.rs` — the per-tick simulation (`Controls`, `Transform`,
  `Microbe`, the eating-resolution and apply phases of `World::update`,
  and the directional sensing filter `World::get_nearby_microbes`).

Machine floats (`f32`) are modeled as exact rational numbers: decimal
literals denote their exact rational value and `std::f32::consts::PI`
denotes the `f32` approximation of π, which is the rational
13176795 / 4194304.  Rust's `%` on floats (remainder truncated toward
zero) is modeled by `fmod` below.  UUIDs are modeled as natural numbers
supplied by the caller where the code draws fresh random identifiers.
-/

namespace Microswarm

/-- Model of `Rect` from `src/quadtree.rs`: axis-aligned region. -/
structure Rect where
  x : ℚ
  y : ℚ
  width : ℚ
  height : ℚ
deriving DecidableEq

/-- Model of `Point` from `src/quadtree.rs`. -/
structure Point where
  x : ℚ
  y : ℚ
deriving DecidableEq

/-- Model of `Rect::intersects` from `src/quadtree.rs` (lines 19-24). `s` is the
receiver (`self`), `o` the argument (`other`). -/
def Rect.intersects (s o : Rect) : Bool :=
  !(o.x > s.x + s.width || o.x + o.width < s.x
    || o.y > s.y + s.height || o.y + o.height < s.y)

/-- Model of `Rect::contains_point` from `src/quadtree.rs` (lines 26-31):
closed intervals on both bounds. -/
def Rect.containsPoint (r : Rect) (p : Point) : Bool :=
  p.x ≥ r.x && p.x ≤ r.x + r.width && p.y ≥ r.y && p.y ≤ r.y + r.height

/-- Northwest quadrant rectangle built by `QuadTreeNode::subdivide`. -/
def nwRect (b : Rect) : Rect := ⟨b.x, b.y, b.width / 2, b.height / 2⟩

/-- Northeast quadrant rectangle built by `QuadTreeNode::subdivide`. -/
def neRect (b : Rect) : Rect := ⟨b.x + b.width / 2, b.y, b.width / 2, b.height / 2⟩

/-- Southwest quadrant rectangle built by `QuadTreeNode::subdivide`. -/
def swRect (b : Rect) : Rect := ⟨b.x, b.y + b.height / 2, b.width / 2, b.height / 2⟩

/-- Southeast quadrant rectangle built by `QuadTreeNode::subdivide`. -/
def seRect (b : Rect) : Rect :=
  ⟨b.x + b.width / 2, b.y + b.height / 2, b.width / 2, b.height / 2⟩

/-- Model of `QuadTreeNode` from `src/quadtree.rs`: `leaf` is a node with
`children == None`, `node` one with four children (NW, NE, SW, SE). -/
inductive QuadTreeNode (α : Type) where
  | leaf (bounds : Rect) (capacity : Nat) (items : List α)
  | node (bounds : Rect) (capacity : Nat) (items : List α)
      (nw ne sw se : QuadTreeNode α)
deriving DecidableEq

/-- The `bounds` field of a node. -/
def QuadTreeNode.boundsOf : QuadTreeNode α → Rect
  | .leaf b _ _ => b
  | .node b _ _ _ _ _ _ => b

/-- The `capacity` field of a node. -/
def QuadTreeNode.capacityOf : QuadTreeNode α → Nat
  | .leaf _ c _ => c
  | .node _ c _ _ _ _ _ => c

/-- All items stored transitively under a node, children first, then the
node's own items — the order produced by `QuadTreeNode::items`
(`src/quadtree.rs` lines 137-147). -/
def QuadTreeNode.storedItems : QuadTreeNode α → List α
  | .leaf _ _ items => items
  | .node _ _ items nw ne sw se =>
      nw.storedItems ++ ne.storedItems ++ sw.storedItems ++ se.storedItems ++ items

/-- One unfolding of `QuadTreeNode::insert` on a freshly subdivided empty
child: the child rejects the item when its bounds do not contain the
location, and stores it otherwise.  For `capacity = 0` the Rust
recursion does not terminate (it subdivides forever); that case is
unreachable in the program (the world uses capacity 10) and is
totalized here as a silent drop.  All theorems that depend on insertion
semantics assume `0 < capacity`. -/
def emptyLeafInsert (loc : α → Point) (b : Rect) (cap : Nat) (a : α) :
    QuadTreeNode α × Option α :=
  if b.containsPoint (loc a) = false then (.leaf b cap [], some a)
  else if 0 < cap then (.leaf b cap [a], none)
  else (.leaf b cap [], none)

/-- Model of `QuadTreeNode::insert` from `src/quadtree.rs` (lines 97-123), returning
the updated node together with `Some rejected` exactly as the Rust code
returns `Option<T>`.  Out-of-bounds items are rejected up front; a node
below capacity pushes onto its own item list; a full node subdivides if
needed and offers the item to NW, NE, SW, SE in order, keeping the first
acceptance; if every child rejects, the Rust loop falls through and
returns `None`, silently dropping the item. -/
def QuadTreeNode.insertAux (loc : α → Point) :
    QuadTreeNode α → α → QuadTreeNode α × Option α
  | .leaf b cap items, a =>
    if b.containsPoint (loc a) = false then (.leaf b cap items, some a)
    else if items.length < cap then (.leaf b cap (items ++ [a]), none)
    else
      match emptyLeafInsert loc (nwRect b) cap a with
      | (nw, none) =>
        (.node b cap items nw (.leaf (neRect b) cap []) (.leaf (swRect b) cap [])
          (.leaf (seRect b) cap []), none)
      | (nw, some a1) =>
        match emptyLeafInsert loc (neRect b) cap a1 with
        | (ne, none) =>
          (.node b cap items nw ne (.leaf (swRect b) cap []) (.leaf (seRect b) cap []), none)
        | (ne, some a2) =>
          match emptyLeafInsert loc (swRect b) cap a2 with
          | (sw, none) => (.node b cap items nw ne sw (.leaf (seRect b) cap []), none)
          | (sw, some a3) =>
            match emptyLeafInsert loc (seRect b) cap a3 with
            | (se, _) => (.node b cap items nw ne sw se, none)
  | .node b cap items nw ne sw se, a =>
    if b.containsPoint (loc a) = false then (.node b cap items nw ne sw se, some a)
    else if items.length < cap then (.node b cap (items ++ [a]) nw ne sw se, none)
    else
      match nw.insertAux loc a with
      | (nw', none) => (.node b cap items nw' ne sw se, none)
      | (nw', some a1) =>
        match ne.insertAux loc a1 with
        | (ne', none) => (.node b cap items nw' ne' sw se, none)
        | (ne', some a2) =>
          match sw.insertAux loc a2 with
          | (sw', none) => (.node b cap items nw' ne' sw' se, none)
          | (sw', some a3) =>
            match se.insertAux loc a3 with
            | (se', _) => (.node b cap items nw' ne' sw' se', none)

/-- Model of `QuadTreeNode::query` from `src/quadtree.rs` (lines 149-169): prune
nodes whose bounds do not intersect the query rectangle, collect the
node's own matching items, then recurse into children. -/
def QuadTreeNode.queryNode (loc : α → Point) (r : Rect) :
    QuadTreeNode α → List α
  | .leaf b _ items =>
    if b.intersects r then items.filter (fun a => r.containsPoint (loc a)) else []
  | .node b _ items nw ne sw se =>
    if b.intersects r then
      items.filter (fun a => r.containsPoint (loc a))
        ++ nw.queryNode loc r ++ ne.queryNode loc r
        ++ sw.queryNode loc r ++ se.queryNode loc r
    else []

/-- Model of `QuadTree` from `src/quadtree.rs` (lines 172-175). -/
structure QuadTree (α : Type) where
  root : QuadTreeNode α
deriving DecidableEq

/-- Model of `QuadTree::new` (lines 177-182). -/
def QuadTree.new (bounds : Rect) (capacity : Nat) : QuadTree α :=
  ⟨.leaf bounds capacity []⟩

/-- Model of `QuadTree::insert` (lines 184-186): `self.root.insert(data).is_none()`;
the mutation is modeled by returning the updated tree alongside the
boolean result. -/
def QuadTree.insert (loc : α → Point) (t : QuadTree α) (a : α) : QuadTree α × Bool :=
  let r := t.root.insertAux loc a
  (⟨r.1⟩, r.2.isNone)

/-- Model of `QuadTree::query` (lines 196-198). -/
def QuadTree.query (loc : α → Point) (t : QuadTree α) (r : Rect) : List α :=
  t.root.queryNode loc r

/-- Insert a list of items in order, discarding the boolean results, as the
world-seeding and tick-rebuild loops in `src/main.rs` do. -/
def insertAll (loc : α → Point) (t : QuadTree α) (as : List α) : QuadTree α :=
  as.foldl (fun t a => (QuadTree.insert loc t a).1) t

/-- Unfold `Rect.containsPoint` into arithmetic inequalities. -/
theorem containsPoint_iff (r : Rect) (p : Point) :
    r.containsPoint p = true ↔
      r.x ≤ p.x ∧ p.x ≤ r.x + r.width ∧ r.y ≤ p.y ∧ p.y ≤ r.y + r.height := by
  simp [Rect.containsPoint, and_assoc, ge_iff_le]

/-- A rectangle containing a point intersects any other rectangle
containing the same point. -/
theorem intersects_of_containsPoint {b r : Rect} {p : Point}
    (hb : b.containsPoint p = true) (hr : r.containsPoint p = true) :
    b.intersects r = true := by
  rw [containsPoint_iff] at hb hr
  simp only [Rect.intersects, Bool.not_eq_true', Bool.or_eq_false_iff,
    decide_eq_false_iff_not, not_lt]
  refine ⟨⟨⟨?_, ?_⟩, ?_⟩, ?_⟩ <;> linarith [hb.1, hb.2.1, hb.2.2.1, hb.2.2.2,
    hr.1, hr.2.1, hr.2.2.1, hr.2.2.2]

/-- A point inside any of the four quadrant rectangles lies inside the
parent rectangle. -/
theorem containsPoint_of_quadrant {b : Rect} {p : Point}
    (h : (nwRect b).containsPoint p = true ∨ (neRect b).containsPoint p = true
      ∨ (swRect b).containsPoint p = true ∨ (seRect b).containsPoint p = true) :
    b.containsPoint p = true := by
  rw [containsPoint_iff]
  rcases h with h | h | h | h <;>
    [skip; skip; skip; skip] <;>
    · rw [containsPoint_iff] at h
      simp only [nwRect, neRect, swRect, seRect] at h
      obtain ⟨h1, h2, h3, h4⟩ := h
      refine ⟨by linarith, by linarith, by linarith, by linarith⟩

/-- A point inside the parent rectangle lies inside at least one of the
four quadrant rectangles. -/
theorem quadrant_cover {b : Rect} {p : Point} (h : b.containsPoint p = true) :
    (nwRect b).containsPoint p = true ∨ (neRect b).containsPoint p = true
      ∨ (swRect b).containsPoint p = true ∨ (seRect b).containsPoint p = true := by
  rw [containsPoint_iff] at h
  obtain ⟨h1, h2, h3, h4⟩ := h
  simp only [containsPoint_iff, nwRect, neRect, swRect, seRect]
  rcases le_or_lt p.x (b.x + b.width / 2) with hx | hx <;>
    rcases le_or_lt p.y (b.y + b.height / 2) with hy | hy
  · exact Or.inl ⟨by linarith, by linarith, by linarith, by linarith⟩
  · exact Or.inr (Or.inr (Or.inl ⟨by linarith, by linarith, by linarith, by linarith⟩))
  · exact Or.inr (Or.inl ⟨by linarith, by linarith, by linarith, by linarith⟩)
  · exact Or.inr (Or.inr (Or.inr ⟨by linarith, by linarith, by linarith, by linarith⟩))

/-- Lemma: `emptyLeafInsert` only rejects at the containment check, returning the
item and an unchanged empty leaf. -/
theorem emptyLeafInsert_some (loc : α → Point) {b : Rect} {cap : Nat} {a : α}
    {n : QuadTreeNode α} {x : α}
    (h : emptyLeafInsert loc b cap a = (n, some x)) :
    n = .leaf b cap [] ∧ x = a ∧ b.containsPoint (loc a) = false := by
  unfold emptyLeafInsert at h
  by_cases hc : b.containsPoint (loc a) = false
  · rw [if_pos hc] at h
    injection h with h1 h2
    injection h2 with h3
    exact ⟨h1.symm, h3.symm, hc⟩
  · rw [if_neg hc] at h
    split at h <;> simp at h

/-- For positive capacity, `emptyLeafInsert` accepts exactly the contained
items, storing the item in the fresh leaf. -/
theorem emptyLeafInsert_none (loc : α → Point) {b : Rect} {cap : Nat} {a : α}
    (hcap : 0 < cap) {n : QuadTreeNode α}
    (h : emptyLeafInsert loc b cap a = (n, none)) :
    n = .leaf b cap [a] ∧ b.containsPoint (loc a) = true := by
  unfold emptyLeafInsert at h
  by_cases hc : b.containsPoint (loc a) = false
  · rw [if_pos hc] at h
    simp at h
  · rw [if_neg hc, if_pos hcap] at h
    rw [Bool.not_eq_false] at hc
    injection h with h1 h2
    exact ⟨h1.symm, hc⟩

/-- The first component of `emptyLeafInsert` is a leaf with the supplied
bounds and capacity whose items all satisfy containment. -/
theorem emptyLeafInsert_fst_spec (loc : α → Point) (b : Rect) (cap : Nat) (a : α) :
    ∃ l, (emptyLeafInsert loc b cap a).1 = .leaf b cap l ∧
      ∀ x ∈ l, b.containsPoint (loc x) = true := by
  unfold emptyLeafInsert
  split
  · exact ⟨[], rfl, by simp⟩
  · next hc =>
    rw [Bool.not_eq_false] at hc
    split
    · exact ⟨[a], rfl, by simpa using hc⟩
    · exact ⟨[], rfl, by simp⟩

/-- Lemma: `QuadTreeNode::insert` rejects exactly items outside the node's bounds,
leaving the node untouched. -/
theorem insertAux_not_contains (loc : α → Point) {n : QuadTreeNode α} {a : α}
    (h : n.boundsOf.containsPoint (loc a) = false) :
    n.insertAux loc a = (n, some a) := by
  cases n <;> simp_all [QuadTreeNode.insertAux, QuadTreeNode.boundsOf]

/-- Whenever the item lies inside the node's bounds, `QuadTreeNode::insert`
returns `None` (every code path past the containment check does). -/
theorem insertAux_snd_none (loc : α → Point) {n : QuadTreeNode α} {a : α}
    (h : n.boundsOf.containsPoint (loc a) = true) :
    (n.insertAux loc a).2 = none := by
  cases n <;> simp only [QuadTreeNode.boundsOf] at h <;>
    · simp only [QuadTreeNode.insertAux]
      split
      · simp_all
      · split
        · rfl
        · repeat' split
          all_goals rfl

/-- Lemma: `QuadTreeNode::insert` returns `None` exactly when the item's location
lies inside the node's bounds. -/
theorem insertAux_snd_none_iff (loc : α → Point) (n : QuadTreeNode α) (a : α) :
    (n.insertAux loc a).2 = none ↔ n.boundsOf.containsPoint (loc a) = true := by
  constructor
  · intro h
    by_contra hc
    rw [Bool.not_eq_true] at hc
    rw [insertAux_not_contains loc hc] at h
    cases h
  · exact insertAux_snd_none loc

/-- A rejection from `QuadTreeNode::insert` returns the original item and
leaves the node unchanged. -/
theorem insertAux_rejected (loc : α → Point) {n n' : QuadTreeNode α} {a x : α}
    (h : n.insertAux loc a = (n', some x)) :
    n' = n ∧ x = a ∧ n.boundsOf.containsPoint (loc a) = false := by
  have hb : n.boundsOf.containsPoint (loc a) = false := by
    by_contra hc
    rw [Bool.not_eq_false] at hc
    have := insertAux_snd_none loc hc
    rw [h] at this
    cases this
  rw [insertAux_not_contains loc hb] at h
  exact ⟨(Prod.mk.injEq _ _ _ _ ▸ h).1.symm, by cases h; rfl, hb⟩

/-- Insertion never changes a node's bounds. -/
theorem insertAux_boundsOf (loc : α → Point) (n : QuadTreeNode α) (a : α) :
    ((n.insertAux loc a).1).boundsOf = n.boundsOf := by
  cases n <;> simp only [QuadTreeNode.insertAux] <;>
    · repeat' split
      all_goals rfl

/-- Insertion never changes a node's capacity. -/
theorem insertAux_capacityOf (loc : α → Point) (n : QuadTreeNode α) (a : α) :
    ((n.insertAux loc a).1).capacityOf = n.capacityOf := by
  cases n <;> simp only [QuadTreeNode.insertAux] <;>
    · repeat' split
      all_goals rfl

/-- Well-formedness of a quadtree node, as maintained by
`QuadTreeNode::insert` and `QuadTreeNode::subdivide`: every directly
stored item lies inside the node's bounds, and children (when present)
carry the four quadrant rectangles of the parent's bounds and the
parent's capacity. -/
inductive WF (loc : α → Point) : QuadTreeNode α → Prop
  | leaf {b : Rect} {cap : Nat} {items : List α}
      (hitems : ∀ a ∈ items, b.containsPoint (loc a) = true) :
      WF loc (.leaf b cap items)
  | node {b : Rect} {cap : Nat} {items : List α} {nw ne sw se : QuadTreeNode α}
      (hitems : ∀ a ∈ items, b.containsPoint (loc a) = true)
      (hnw : WF loc nw) (hne : WF loc ne) (hsw : WF loc sw) (hse : WF loc se)
      (bnw : nw.boundsOf = nwRect b) (bne : ne.boundsOf = neRect b)
      (bsw : sw.boundsOf = swRect b) (bse : se.boundsOf = seRect b)
      (cnw : nw.capacityOf = cap) (cne : ne.capacityOf = cap)
      (csw : sw.capacityOf = cap) (cse : se.capacityOf = cap) :
      WF loc (.node b cap items nw ne sw se)

/-- In a well-formed node, every transitively stored item lies inside the
node's bounds. -/
theorem stored_containsPoint (loc : α → Point) {n : QuadTreeNode α}
    (hn : WF loc n) : ∀ a ∈ n.storedItems, n.boundsOf.containsPoint (loc a) = true := by
  induction hn with
  | leaf hitems => exact hitems
  | node hitems hnw hne hsw hse bnw bne bsw bse cnw cne csw cse
      ihnw ihne ihsw ihse =>
    intro a ha
    simp only [QuadTreeNode.storedItems, List.mem_append] at ha
    simp only [QuadTreeNode.boundsOf]
    rcases ha with ((((ha | ha) | ha) | ha) | ha)
    · exact containsPoint_of_quadrant (Or.inl (bnw ▸ ihnw a ha))
    · exact containsPoint_of_quadrant (Or.inr (Or.inl (bne ▸ ihne a ha)))
    · exact containsPoint_of_quadrant (Or.inr (Or.inr (Or.inl (bsw ▸ ihsw a ha))))
    · exact containsPoint_of_quadrant (Or.inr (Or.inr (Or.inr (bse ▸ ihse a ha))))
    · exact hitems a ha

/-- Lemma: `QuadTree::new` produces a well-formed (empty) root. -/
theorem WF_new (loc : α → Point) (bounds : Rect) (cap : Nat) :
    WF loc (QuadTree.new (α := α) bounds cap).root :=
  WF.leaf (by simp [QuadTree.new])

/-- Lemma: `QuadTreeNode::insert` preserves well-formedness. -/
theorem WF_insertAux (loc : α → Point) {n : QuadTreeNode α} (hn : WF loc n) :
    ∀ a, WF loc (n.insertAux loc a).1 := by
  induction hn with
  | leaf hitems =>
    intro a
    rw [QuadTreeNode.insertAux]
    split
    · exact WF.leaf hitems
    · next hcont =>
      rw [Bool.not_eq_false] at hcont
      split
      · exact WF.leaf (by
          intro x hx
          rcases List.mem_append.mp hx with hx | hx
          · exact hitems x hx
          · simp only [List.mem_singleton] at hx
            exact hx ▸ hcont)
      · split
        · next nw1 hnw1 =>
          obtain ⟨lnw, hlnw, hcnw⟩ := emptyLeafInsert_fst_spec loc (nwRect _) _ a
          rw [hnw1] at hlnw
          subst hlnw
          exact WF.node hitems (WF.leaf hcnw) (WF.leaf (by simp))
            (WF.leaf (by simp)) (WF.leaf (by simp)) rfl rfl rfl rfl rfl rfl rfl rfl
        · next nw1 a1 hnw1 =>
          obtain ⟨h1, -, -⟩ := emptyLeafInsert_some loc hnw1
          subst h1
          split
          · next ne1 hne1 =>
            obtain ⟨lne, hlne, hcne⟩ := emptyLeafInsert_fst_spec loc (neRect _) _ a1
            rw [hne1] at hlne
            subst hlne
            exact WF.node hitems (WF.leaf (by simp)) (WF.leaf hcne)
              (WF.leaf (by simp)) (WF.leaf (by simp)) rfl rfl rfl rfl rfl rfl rfl rfl
          · next ne1 a2 hne1 =>
            obtain ⟨h1, -, -⟩ := emptyLeafInsert_some loc hne1
            subst h1
            split
            · next sw1 hsw1 =>
              obtain ⟨lsw, hlsw, hcsw⟩ := emptyLeafInsert_fst_spec loc (swRect _) _ a2
              rw [hsw1] at hlsw
              subst hlsw
              exact WF.node hitems (WF.leaf (by simp)) (WF.leaf (by simp))
                (WF.leaf hcsw) (WF.leaf (by simp)) rfl rfl rfl rfl rfl rfl rfl rfl
            · next sw1 a3 hsw1 =>
              obtain ⟨h1, -, -⟩ := emptyLeafInsert_some loc hsw1
              subst h1
              split
              · next se1 r hse1 =>
                obtain ⟨lse, hlse, hcse⟩ := emptyLeafInsert_fst_spec loc (seRect _) _ a3
                rw [hse1] at hlse
                subst hlse
                exact WF.node hitems (WF.leaf (by simp)) (WF.leaf (by simp))
                  (WF.leaf (by simp)) (WF.leaf hcse) rfl rfl rfl rfl rfl rfl rfl rfl
  | node hitems hnw hne hsw hse bnw bne bsw bse cnw cne csw cse
      ihnw ihne ihsw ihse =>
    intro a
    rw [QuadTreeNode.insertAux]
    split
    · exact WF.node hitems hnw hne hsw hse bnw bne bsw bse cnw cne csw cse
    · next hcont =>
      rw [Bool.not_eq_false] at hcont
      split
      · exact WF.node (by
          intro x hx
          rcases List.mem_append.mp hx with hx | hx
          · exact hitems x hx
          · simp only [List.mem_singleton] at hx
            exact hx ▸ hcont) hnw hne hsw hse bnw bne bsw bse cnw cne csw cse
      · split
        · next nw1 hnw1 =>
          have hwf := ihnw a
          rw [hnw1] at hwf
          exact WF.node hitems hwf hne hsw hse
            (by rw [show nw1 = (QuadTreeNode.insertAux loc _ a).1 by rw [hnw1],
              insertAux_boundsOf]; exact bnw)
            bne bsw bse
            (by rw [show nw1 = (QuadTreeNode.insertAux loc _ a).1 by rw [hnw1],
              insertAux_capacityOf]; exact cnw)
            cne csw cse
        · next nw1 a1 hnw1 =>
          obtain ⟨h1, -, -⟩ := insertAux_rejected loc hnw1
          subst h1
          split
          · next ne1 hne1 =>
            have hwf := ihne a1
            rw [hne1] at hwf
            exact WF.node hitems hnw hwf hsw hse bnw
              (by rw [show ne1 = (QuadTreeNode.insertAux loc _ a1).1 by rw [hne1],
                insertAux_boundsOf]; exact bne)
              bsw bse cnw
              (by rw [show ne1 = (QuadTreeNode.insertAux loc _ a1).1 by rw [hne1],
                insertAux_capacityOf]; exact cne)
              csw cse
          · next ne1 a2 hne1 =>
            obtain ⟨h1, -, -⟩ := insertAux_rejected loc hne1
            subst h1
            split
            · next sw1 hsw1 =>
              have hwf := ihsw a2
              rw [hsw1] at hwf
              exact WF.node hitems hnw hne hwf hse bnw bne
                (by rw [show sw1 = (QuadTreeNode.insertAux loc _ a2).1 by rw [hsw1],
                  insertAux_boundsOf]; exact bsw)
                bse cnw cne
                (by rw [show sw1 = (QuadTreeNode.insertAux loc _ a2).1 by rw [hsw1],
                  insertAux_capacityOf]; exact csw)
                cse
            · next sw1 a3 hsw1 =>
              obtain ⟨h1, -, -⟩ := insertAux_rejected loc hsw1
              subst h1
              split
              · next se1 r hse1 =>
                have hwf := ihse a3
                rw [hse1] at hwf
                exact WF.node hitems hnw hne hsw hwf bnw bne bsw
                  (by rw [show se1 = (QuadTreeNode.insertAux loc _ a3).1 by rw [hse1],
                    insertAux_boundsOf]; exact bse)
                  cnw cne csw
                  (by rw [show se1 = (QuadTreeNode.insertAux loc _ a3).1 by rw [hse1],
                    insertAux_capacityOf]; exact cse)

/-- For a well-formed node of positive capacity, inserting a contained item
stores it exactly once: the stored items afterwards are a permutation of
the item consed onto the previous stored items (in particular, the Rust
fall-through that would silently drop an item never fires). -/
theorem insertAux_stored (loc : α → Point) {n : QuadTreeNode α} (hn : WF loc n) :
    ∀ a, 0 < n.capacityOf → n.boundsOf.containsPoint (loc a) = true →
      List.Perm ((n.insertAux loc a).1.storedItems) (a :: n.storedItems) := by
  induction hn with
  | leaf hitems =>
    intro a hcap hc
    simp only [QuadTreeNode.capacityOf] at hcap
    simp only [QuadTreeNode.boundsOf] at hc
    rw [QuadTreeNode.insertAux]
    split
    · simp_all
    · split
      · simp [QuadTreeNode.storedItems, List.perm_append_singleton]
      · split
        · next nw1 hnw1 =>
          obtain ⟨h1, -⟩ := emptyLeafInsert_none loc hcap hnw1
          subst h1
          simp [QuadTreeNode.storedItems]
        · next nw1 a1 hnw1 =>
          obtain ⟨h1, h2, hno1⟩ := emptyLeafInsert_some loc hnw1
          subst h1
          split
          · next ne1 hne1 =>
            rw [h2] at hne1
            obtain ⟨h3, -⟩ := emptyLeafInsert_none loc hcap hne1
            subst h3
            simp [QuadTreeNode.storedItems]
          · next ne1 a2 hne1 =>
            rw [h2] at hne1
            obtain ⟨h3, h4, hno2⟩ := emptyLeafInsert_some loc hne1
            subst h3
            split
            · next sw1 hsw1 =>
              rw [h4] at hsw1
              obtain ⟨h5, -⟩ := emptyLeafInsert_none loc hcap hsw1
              subst h5
              simp [QuadTreeNode.storedItems]
            · next sw1 a3 hsw1 =>
              rw [h4] at hsw1
              obtain ⟨h5, h6, hno3⟩ := emptyLeafInsert_some loc hsw1
              subst h5
              split
              · next se1 r hse1 =>
                rw [h6] at hse1
                rcases r with - | x
                · obtain ⟨h7, -⟩ := emptyLeafInsert_none loc hcap hse1
                  subst h7
                  simp [QuadTreeNode.storedItems]
                · obtain ⟨-, -, hno4⟩ := emptyLeafInsert_some loc hse1
                  rcases quadrant_cover hc with h | h | h | h <;> simp_all
  | node hitems hnw hne hsw hse bnw bne bsw bse cnw cne csw cse
      ihnw ihne ihsw ihse =>
    intro a hcap hc
    simp only [QuadTreeNode.capacityOf] at hcap
    simp only [QuadTreeNode.boundsOf] at hc
    rw [QuadTreeNode.insertAux]
    split
    · simp_all
    · split
      · simp only [QuadTreeNode.storedItems]
        simp only [← List.append_assoc]
        exact List.perm_append_singleton a _
      · split
        · next nw1 hnw1 =>
          have hperm := ihnw a (by rw [cnw]; exact hcap)
            ((insertAux_snd_none_iff loc _ _).mp (by rw [hnw1]))
          rw [hnw1] at hperm
          simp only [QuadTreeNode.storedItems, List.append_assoc]
          exact hperm.append_right _
        · next nw1 a1 hnw1 =>
          obtain ⟨h1, h2, hno1⟩ := insertAux_rejected loc hnw1
          subst h1
          split
          · next ne1 hne1 =>
            rw [h2] at hne1
            have hperm := ihne a (by rw [cne]; exact hcap)
              ((insertAux_snd_none_iff loc _ _).mp (by rw [hne1]))
            rw [hne1] at hperm
            simp only [QuadTreeNode.storedItems, List.append_assoc]
            exact ((hperm.append_right _).append_left _).trans List.perm_middle
          · next ne1 a2 hne1 =>
            rw [h2] at hne1
            obtain ⟨h3, h4, hno2⟩ := insertAux_rejected loc hne1
            subst h3
            split
            · next sw1 hsw1 =>
              rw [h4] at hsw1
              have hperm := ihsw a (by rw [csw]; exact hcap)
                ((insertAux_snd_none_iff loc _ _).mp (by rw [hsw1]))
              rw [hsw1] at hperm
              simp only [QuadTreeNode.storedItems, List.append_assoc]
              exact ((((hperm.append_right _).append_left _).trans
                List.perm_middle).append_left _).trans List.perm_middle
            · next sw1 a3 hsw1 =>
              rw [h4] at hsw1
              obtain ⟨h5, h6, hno3⟩ := insertAux_rejected loc hsw1
              subst h5
              split
              · next se1 r hse1 =>
                rw [h6] at hse1
                rcases r with - | x
                · have hperm := ihse a (by rw [cse]; exact hcap)
                    ((insertAux_snd_none_iff loc _ _).mp (by rw [hse1]))
                  rw [hse1] at hperm
                  simp only [QuadTreeNode.storedItems, List.append_assoc]
                  exact ((((((hperm.append_right _).append_left _).trans
                    List.perm_middle).append_left _).trans
                    List.perm_middle).append_left _).trans List.perm_middle
                · obtain ⟨-, -, hno4⟩ := insertAux_rejected loc hse1
                  rw [bnw] at hno1
                  rw [bne] at hno2
                  rw [bsw] at hno3
                  rw [bse] at hno4
                  rcases quadrant_cover hc with h | h | h | h <;> simp_all

/-- Lemma: `QuadTreeNode::query` on a well-formed node returns a permutation of
the stored items whose location the query rectangle contains: the
intersection pruning never discards a matching item. -/
theorem queryNode_stored (loc : α → Point) {n : QuadTreeNode α} (hn : WF loc n)
    (r : Rect) :
    List.Perm (n.queryNode loc r)
      ((n.storedItems).filter (fun a => r.containsPoint (loc a))) := by
  induction hn with
  | leaf hitems =>
    rw [QuadTreeNode.queryNode]
    split
    · exact List.Perm.refl _
    · next hint =>
      rw [show (QuadTreeNode.leaf _ _ _ : QuadTreeNode α).storedItems = _ from rfl,
        List.filter_eq_nil_iff.mpr ?_]
      intro a ha hr
      rw [Bool.not_eq_true] at hint
      rw [intersects_of_containsPoint (hitems a ha) (by simpa using hr)] at hint
      cases hint
  | node hitems hnw hne hsw hse bnw bne bsw bse cnw cne csw cse
      ihnw ihne ihsw ihse =>
    rw [QuadTreeNode.queryNode]
    split
    · rw [← Multiset.coe_eq_coe]
      have e1 := Multiset.coe_eq_coe.mpr ihnw
      have e2 := Multiset.coe_eq_coe.mpr ihne
      have e3 := Multiset.coe_eq_coe.mpr ihsw
      have e4 := Multiset.coe_eq_coe.mpr ihse
      simp only [QuadTreeNode.storedItems, List.filter_append, ← Multiset.coe_add]
      rw [e1, e2, e3, e4]
      abel
    · next hint =>
      have hwf : WF loc (.node _ _ _ _ _ _ _) :=
        WF.node hitems hnw hne hsw hse bnw bne bsw bse cnw cne csw cse
      rw [List.filter_eq_nil_iff.mpr ?_]
      intro a ha hr
      rw [Bool.not_eq_true] at hint
      have hb := stored_containsPoint loc hwf a ha
      simp only [QuadTreeNode.boundsOf] at hb
      rw [intersects_of_containsPoint hb (by simpa using hr)] at hint
      cases hint

/-- Building a tree by repeated insertion preserves well-formedness. -/
theorem WF_insertAll (loc : α → Point) {t : QuadTree α} (h : WF loc t.root)
    (as : List α) : WF loc (insertAll loc t as).root := by
  induction as generalizing t with
  | nil => exact h
  | cons a as ih =>
    have : insertAll loc t (a :: as) = insertAll loc (QuadTree.insert loc t a).1 as := rfl
    rw [this]
    exact ih (WF_insertAux loc h a)

/-- Repeated insertion does not change the root bounds. -/
theorem insertAll_boundsOf (loc : α → Point) (t : QuadTree α) (as : List α) :
    (insertAll loc t as).root.boundsOf = t.root.boundsOf := by
  induction as generalizing t with
  | nil => rfl
  | cons a as ih =>
    have : insertAll loc t (a :: as) = insertAll loc (QuadTree.insert loc t a).1 as := rfl
    rw [this, ih, QuadTree.insert]
    exact insertAux_boundsOf loc t.root a

/-- Repeated insertion does not change the root capacity. -/
theorem insertAll_capacityOf (loc : α → Point) (t : QuadTree α) (as : List α) :
    (insertAll loc t as).root.capacityOf = t.root.capacityOf := by
  induction as generalizing t with
  | nil => rfl
  | cons a as ih =>
    have : insertAll loc t (a :: as) = insertAll loc (QuadTree.insert loc t a).1 as := rfl
    rw [this, ih, QuadTree.insert]
    exact insertAux_capacityOf loc t.root a

/-- Inserting a list of contained items into a well-formed tree of positive
capacity stores exactly those items on top of the existing ones. -/
theorem insertAll_stored (loc : α → Point) {t : QuadTree α} (h : WF loc t.root)
    (hcap : 0 < t.root.capacityOf) (as : List α)
    (hin : ∀ a ∈ as, t.root.boundsOf.containsPoint (loc a) = true) :
    List.Perm ((insertAll loc t as).root.storedItems) (as ++ t.root.storedItems) := by
  induction as generalizing t with
  | nil => simp [insertAll]
  | cons a as ih =>
    have hstep : List.Perm ((QuadTree.insert loc t a).1.root.storedItems)
        (a :: t.root.storedItems) :=
      insertAux_stored loc h a hcap (hin a (by simp))
    have hrec := ih (t := (QuadTree.insert loc t a).1) (WF_insertAux loc h a)
      (by rw [show (QuadTree.insert loc t a).1.root = (t.root.insertAux loc a).1 from rfl,
        insertAux_capacityOf]; exact hcap)
      (by intro x hx
          rw [show (QuadTree.insert loc t a).1.root = (t.root.insertAux loc a).1 from rfl,
            insertAux_boundsOf]
          exact hin x (List.mem_cons_of_mem a hx))
    have : insertAll loc t (a :: as) = insertAll loc (QuadTree.insert loc t a).1 as := rfl
    rw [this]
    exact (hrec.trans ((hstep.append_left as).trans List.perm_middle))

/-- Relation stating that `m` is a node of the tree rooted at `n` (reflexive-transitive descent
through the four children). -/
inductive Subnode : QuadTreeNode α → QuadTreeNode α → Prop
  | refl (n : QuadTreeNode α) : Subnode n n
  | nw {m : QuadTreeNode α} {b cap items} {nw ne sw se : QuadTreeNode α} :
      Subnode m nw → Subnode m (.node b cap items nw ne sw se)
  | ne {m : QuadTreeNode α} {b cap items} {nw ne sw se : QuadTreeNode α} :
      Subnode m ne → Subnode m (.node b cap items nw ne sw se)
  | sw {m : QuadTreeNode α} {b cap items} {nw ne sw se : QuadTreeNode α} :
      Subnode m sw → Subnode m (.node b cap items nw ne sw se)
  | se {m : QuadTreeNode α} {b cap items} {nw ne sw se : QuadTreeNode α} :
      Subnode m se → Subnode m (.node b cap items nw ne sw se)

/-- Well-formedness descends to every subnode. -/
theorem WF_subnode (loc : α → Point) {m n : QuadTreeNode α}
    (hs : Subnode m n) (hn : WF loc n) : WF loc m := by
  induction hs with
  | refl => exact hn
  | nw _ ih => cases hn with | node hitems hnw hne hsw hse => exact ih hnw
  | ne _ ih => cases hn with | node hitems hnw hne hsw hse => exact ih hne
  | sw _ ih => cases hn with | node hitems hnw hne hsw hse => exact ih hsw
  | se _ ih => cases hn with | node hitems hnw hne hsw hse => exact ih hse

/-- Concrete bounds used by the witnesses. -/
def r100 : Rect := ⟨0, 0, 100, 100⟩

/-- Concrete agent locations used by the witnesses. -/
def c1Items : List Point := [⟨10, 10⟩, ⟨20, 20⟩, ⟨31, 31⟩]

/-- C1: For every set of agents inserted into a `SpatialIndex` whose
locations lie within the root bounds and every query rectangle `r`,
`query(r)` returns exactly (up to order) the inserted agents whose
location is contained in `r` under the closed-interval containment test,
for every positive capacity — hence independent of the induced
subdivision depth.  Independence of insertion order follows because the
right-hand side depends on the insertion list only through `filter`,
which respects permutations of the list. -/
theorem quadtree_query_exact (loc : α → Point) (bounds : Rect) (cap : Nat)
    (hcap : 0 < cap) (as : List α)
    (hin : ∀ a ∈ as, bounds.containsPoint (loc a) = true) (r : Rect) :
    List.Perm (QuadTree.query loc (insertAll loc (QuadTree.new bounds cap) as) r)
      (as.filter (fun a => r.containsPoint (loc a))) := by
  have hwf := WF_insertAll loc (WF_new loc bounds cap) as
  have hq := queryNode_stored loc hwf r
  have hstored := insertAll_stored loc (WF_new loc bounds cap)
    (by simpa [QuadTree.new, QuadTreeNode.capacityOf] using hcap) as
    (by simpa [QuadTree.new, QuadTreeNode.boundsOf] using hin)
  refine hq.trans ?_
  have hsa : List.Perm
      ((insertAll loc (QuadTree.new (α := α) bounds cap) as).root.storedItems) as := by
    simpa [QuadTree.new, QuadTreeNode.storedItems] using hstored
  exact hsa.filter _

/-- Witness for `quadtree_query_exact`: three concrete points inserted into
a 100×100 tree of capacity 4 and queried with the rectangle
(5, 5, 25, 25), which contains exactly the first two. -/
theorem quadtree_query_exact_witness :
    0 < 4 ∧ (∀ a ∈ c1Items, r100.containsPoint a = true) ∧
    List.Perm
      (QuadTree.query id (insertAll id (QuadTree.new r100 4) c1Items) ⟨5, 5, 25, 25⟩)
      (c1Items.filter (fun a => Rect.containsPoint ⟨5, 5, 25, 25⟩ a)) :=
  ⟨by decide, by norm_num [c1Items, r100, Rect.containsPoint],
    quadtree_query_exact id r100 4 (by decide) c1Items
      (by norm_num [c1Items, r100, Rect.containsPoint]) ⟨5, 5, 25, 25⟩⟩

/-- C8: Inserting into a tree built by any sequence of insertions:
the boolean result of `QuadTree::insert` equals the root-bounds
containment test on the agent's location (false exactly for
out-of-bounds agents, true for contained ones), and an out-of-bounds
insert leaves the whole structure unchanged — nothing is stored and no
subdivision occurs. -/
theorem quadtree_insert_bounds_check (loc : α → Point) (bounds : Rect) (cap : Nat)
    (_hcap : 0 < cap) (as : List α) (a : α) :
    ((QuadTree.insert loc (insertAll loc (QuadTree.new bounds cap) as) a).2
      = bounds.containsPoint (loc a))
    ∧ (bounds.containsPoint (loc a) = false →
      (QuadTree.insert loc (insertAll loc (QuadTree.new bounds cap) as) a).1
        = insertAll loc (QuadTree.new bounds cap) as) := by
  have hb : (insertAll loc (QuadTree.new (α := α) bounds cap) as).root.boundsOf
      = bounds := by
    rw [insertAll_boundsOf]; rfl
  constructor
  · by_cases hc : bounds.containsPoint (loc a) = true
    · rw [hc]
      show ((insertAll loc (QuadTree.new bounds cap) as).root.insertAux loc a).2.isNone
        = true
      rw [insertAux_snd_none loc (by rw [hb]; exact hc)]
      rfl
    · rw [Bool.not_eq_true] at hc
      rw [hc]
      show ((insertAll loc (QuadTree.new bounds cap) as).root.insertAux loc a).2.isNone
        = false
      rw [insertAux_not_contains loc (by rw [hb]; exact hc)]
      rfl
  · intro hc
    show (⟨((insertAll loc (QuadTree.new bounds cap) as).root.insertAux loc a).1⟩
        : QuadTree α) = _
    rw [insertAux_not_contains loc (by rw [hb]; exact hc)]

/-- Witness for `quadtree_insert_bounds_check`: the point (200, 0) lies
outside the 100×100 bounds, so inserting it returns `false` and leaves
the tree unchanged. -/
theorem quadtree_insert_bounds_check_witness :
    0 < 4 ∧
    (((QuadTree.insert id (insertAll id (QuadTree.new r100 4) c1Items) ⟨200, 0⟩).2
      = r100.containsPoint ⟨200, 0⟩)
    ∧ (r100.containsPoint (⟨200, 0⟩ : Point) = false →
      (QuadTree.insert id (insertAll id (QuadTree.new r100 4) c1Items) ⟨200, 0⟩).1
        = insertAll id (QuadTree.new r100 4) c1Items)) :=
  ⟨by decide, quadtree_insert_bounds_check id r100 4 (by decide) c1Items ⟨200, 0⟩⟩

/-- C9: For every sequence of insertions into a fresh tree (successful
or not — unsuccessful ones change nothing), every node `m` of the
resulting tree satisfies the containment invariant: each agent stored
transitively under `m` satisfies `m.bounds.contains_point(location)`;
taking `m` to be the root gives that every stored agent satisfies the
root's bounds (second conjunct, phrased directly against the original
bounds). -/
theorem quadtree_containment_invariant (loc : α → Point) (bounds : Rect)
    (cap : Nat) (as : List α) {m : QuadTreeNode α}
    (hm : Subnode m (insertAll loc (QuadTree.new bounds cap) as).root) :
    (∀ a ∈ m.storedItems, m.boundsOf.containsPoint (loc a) = true)
    ∧ ∀ a ∈ (insertAll loc (QuadTree.new bounds cap) as).root.storedItems,
        bounds.containsPoint (loc a) = true := by
  have hwf := WF_insertAll loc (WF_new loc bounds cap) as
  refine ⟨stored_containsPoint loc (WF_subnode loc hm hwf), ?_⟩
  intro a ha
  have h := stored_containsPoint loc hwf a ha
  rwa [insertAll_boundsOf,
    show (QuadTree.new (α := α) bounds cap).root.boundsOf = bounds from rfl] at h

/-- Witness for `quadtree_containment_invariant`, instantiated at the root
of a concrete tree. -/
theorem quadtree_containment_invariant_witness :
    Subnode (insertAll id (QuadTree.new r100 4) c1Items).root
        (insertAll id (QuadTree.new r100 4) c1Items).root ∧
    ((∀ a ∈ (insertAll id (QuadTree.new r100 4) c1Items).root.storedItems,
        (insertAll id (QuadTree.new r100 4) c1Items).root.boundsOf.containsPoint a
          = true)
    ∧ ∀ a ∈ (insertAll id (QuadTree.new r100 4) c1Items).root.storedItems,
        r100.containsPoint a = true) :=
  ⟨Subnode.refl _,
    quadtree_containment_invariant id r100 4 c1Items (Subnode.refl _)⟩

/-! ## Embedding of `src/main.rs` -/

/-- Constant `BOX_SIZE` from `src/main.rs`. -/
def BOX_SIZE : ℚ := 400

/-- Constant `HEALTH` from `src/main.rs`. -/
def HEALTH : ℚ := 100

/-- Constant `SPEED` from `src/main.rs` (1.5). -/
def SPEED : ℚ := 3 / 2

/-- Constant `ROTATION_SPEED` from `src/main.rs`. -/
def ROTATION_SPEED : ℚ := 1

/-- Constant `DETECT_RANGE_FAR` from `src/main.rs`. -/
def DETECT_RANGE_FAR : ℚ := 40

/-- Constant `DETECT_RANGE_CLOSE` from `src/main.rs`. -/
def DETECT_RANGE_CLOSE : ℚ := 10

/-- Constant `EAT_DAMAGE` from `src/main.rs`. -/
def EAT_DAMAGE : ℚ := 30

/-- Constant `ACTION_ENERGY_CONSUMPTION` from `src/main.rs` (0.001; the `f32`
rounding of the literal is abstracted to its exact decimal value, which
no claim depends on). -/
def ACTION_ENERGY_CONSUMPTION : ℚ := 1 / 1000

/-- Constant `std::f32::consts::PI`: the exact rational value of the `f32` nearest
to π, namely 13176795 · 2⁻²². -/
def PI32 : ℚ := 13176795 / 4194304

/-- Model of `Controls` from `src/main.rs`: the Decision booleans a behavior script
returns. -/
structure Controls where
  right : Bool
  left : Bool
  forward : Bool
  back : Bool
  eat : Bool
deriving DecidableEq

/-- Model of `Controls::new` from `src/main.rs`: the all-false decision. -/
def Controls.new : Controls := ⟨false, false, false, false, false⟩

/-- Model of `Vector2` from `src/main.rs`. -/
structure Vector2 where
  x : ℚ
  y : ℚ
deriving DecidableEq

/-- Model of `Transform` from `src/main.rs`: position plus heading (`rotation`,
radians). -/
structure Transform where
  position : Vector2
  rotation : ℚ
deriving DecidableEq

/-- Model of `Microbe` from `src/main.rs`.  `Uuid` values are modeled as naturals;
`Color32` as a natural (its value never influences the logic). -/
structure Microbe where
  id : Nat
  lineage : Nat
  transform : Transform
  scriptId : Nat
  energy : ℚ
  color : Nat
deriving DecidableEq

/-- Model of `Locatable::location` for `Microbe` (`src/main.rs` lines 101-105). -/
def Microbe.location (m : Microbe) : Point :=
  ⟨m.transform.position.x, m.transform.position.y⟩

/-- Truncation toward zero of a rational, as Rust's `%` on floats uses. -/
def qtrunc (q : ℚ) : ℤ := if 0 ≤ q then ⌊q⌋ else ⌈q⌉

/-- Rust's `%` on `f32` (`Rem::rem`): the remainder `a - b * trunc (a / b)`
with the sign of the dividend. -/
def fmod (a b : ℚ) : ℚ := a - b * qtrunc (a / b)

/-- Model of `Microbe::update` from `src/main.rs` (lines 119-149), with the
transcendental `cos`/`sin` of the heading supplied as function
parameters `cosF`/`sinF` (every theorem below holds for all of them):
deduct the action cost, move forward or back along the heading, turn,
pay the action cost again when eating, and reduce the heading modulo
`2 * PI` with Rust float remainder semantics. -/
def Microbe.update (cosF sinF : ℚ → ℚ) (m : Microbe) (controls : Controls) :
    Microbe :=
  let energy := m.energy - ACTION_ENERGY_CONSUMPTION
  let position :=
    if controls.forward then
      ⟨m.transform.position.x + cosF m.transform.rotation * SPEED,
       m.transform.position.y + sinF m.transform.rotation * SPEED⟩
    else if controls.back then
      (⟨m.transform.position.x - cosF m.transform.rotation * SPEED,
        m.transform.position.y - sinF m.transform.rotation * SPEED⟩ : Vector2)
    else m.transform.position
  let rotation := m.transform.rotation
  let rotation := if controls.right then rotation + ROTATION_SPEED else rotation
  let rotation := if controls.left then rotation - ROTATION_SPEED else rotation
  let energy := if controls.eat then energy - ACTION_ENERGY_CONSUMPTION else energy
  { m with
    transform := ⟨position, fmod rotation (2 * PI32)⟩
    energy := energy }

/-! ### ResolveEating phase (`World::update`, `src/main.rs` lines 344-365)

`microbe_controls` is modeled as a list of entries
`(id, (controls, forward-close target ids))`, and the two `HashMap`s of
counters as functions `Nat → Option Int` (`none` for an absent key,
mirroring `HashMap::get`). Pre-tick energies are supplied as the total
function `energyOf`, mirroring `microbes.get(id).unwrap().energy` which
is called only on keys present in the working map. -/

/-- Model of `microbe_controls.get(edible)`: first entry with the given id. -/
def lookupControls (entries : List (Nat × Controls × List Nat)) (k : Nat) :
    Option (Controls × List Nat) :=
  (entries.find? (fun e => e.1 == k)).map (·.2)

/-- Model of `map.insert(k, map.get(k).unwrap_or(0) + 1)` on a counter map. -/
def bump (m : Nat → Option Int) (k : Nat) : Nat → Option Int :=
  fun j => if j = k then some ((m k).getD 0 + 1) else m j

/-- The body of the inner loop of the ResolveEating phase for one pair
(attacker `id`, candidate prey `p`), threading the `(eaten, ate)`
counter maps exactly as `src/main.rs` lines 349-363 do. -/
def resolvePair (entries : List (Nat × Controls × List Nat)) (energyOf : Nat → ℚ)
    (acc : (Nat → Option Int) × (Nat → Option Int)) (id p : Nat) :
    (Nat → Option Int) × (Nat → Option Int) :=
  match lookupControls entries p with
  | some pce =>
    if pce.1.eat then
      if energyOf id > energyOf p then (bump acc.1 p, bump acc.2 id) else acc
    else (bump acc.1 p, bump acc.2 id)
  | none => acc

/-- One iteration of the outer ResolveEating loop: an agent whose decision
has `eat == true` processes its recorded forward-close target list. -/
def resolveAgent (entries : List (Nat × Controls × List Nat)) (energyOf : Nat → ℚ)
    (acc : (Nat → Option Int) × (Nat → Option Int)) (e : Nat × Controls × List Nat) :
    (Nat → Option Int) × (Nat → Option Int) :=
  if e.2.1.eat then
    e.2.2.foldl (fun acc2 p => resolvePair entries energyOf acc2 e.1 p) acc
  else acc

/-- The ResolveEating phase (`src/main.rs` lines 344-365): returns the
`(eaten, ate)` counter maps. -/
def resolveEating (entries : List (Nat × Controls × List Nat))
    (energyOf : Nat → ℚ) : (Nat → Option Int) × (Nat → Option Int) :=
  entries.foldl (resolveAgent entries energyOf) (fun _ => none, fun _ => none)

/-- Whether, under the code's rules, attacker `aId` consumes prey `pId`:
the prey must have a recorded decision; a prey that also intends to eat
is consumed only when the attacker's pre-tick energy is strictly
greater; a prey that does not intend to eat is always consumed. -/
def consumesB (entries : List (Nat × Controls × List Nat)) (energyOf : Nat → ℚ)
    (aId pId : Nat) : Bool :=
  match lookupControls entries pId with
  | some pce => if pce.1.eat then energyOf aId > energyOf pId else true
  | none => false

/-- The value a counter map associates with `k`, reading absence as 0. -/
def countOf (m : Nat → Option Int) (k : Nat) : Int := (m k).getD 0

/-- Closed-form count of how often agent `k` is eaten: one per pair
(attacker entry with `eat == true`, occurrence of `k` in its target list
with the consumption condition satisfied). -/
def eatenSpec (entries : List (Nat × Controls × List Nat)) (energyOf : Nat → ℚ)
    (k : Nat) : Int :=
  (entries.map (fun e =>
    if e.2.1.eat then
      ((e.2.2.countP (fun p => p == k && consumesB entries energyOf e.1 p) : Nat) : Int)
    else 0)).sum

/-- Closed-form count of how many prey agent `k` consumed: the consuming
pairs of the entries carrying id `k` and `eat == true`. -/
def ateSpec (entries : List (Nat × Controls × List Nat)) (energyOf : Nat → ℚ)
    (k : Nat) : Int :=
  (entries.map (fun e =>
    if e.1 == k && e.2.1.eat then
      ((e.2.2.countP (consumesB entries energyOf e.1) : Nat) : Int)
    else 0)).sum

/-! ### Apply phase (`World::update`, `src/main.rs` lines 367-405) -/

/-- The eating part of the Apply phase (`src/main.rs` lines 375-381):
`ateOpt`/`eatenOpt` are `ate.get(&id)`/`eaten.get(&id)`.  A present
`ate` entry adds the flat `EAT_DAMAGE` reward once, whatever its count
(the scaled variant is commented out in the source); a present `eaten`
entry subtracts its count times `EAT_DAMAGE`. -/
def applyEatEnergy (energy : ℚ) (ateOpt eatenOpt : Option Int) : ℚ :=
  let energy := match ateOpt with
    | some _ => energy + EAT_DAMAGE
    | none => energy
  match eatenOpt with
  | some k => energy - k * EAT_DAMAGE
  | none => energy

/-- Model of `position.clamp(-BOX_SIZE, BOX_SIZE)` on both axes (`src/main.rs`
lines 372-373). -/
def clampPos (p : Vector2) : Vector2 :=
  ⟨max (-BOX_SIZE) (min BOX_SIZE p.x), max (-BOX_SIZE) (min BOX_SIZE p.y)⟩

/-- One offspring clone (`src/main.rs` lines 385-387 etc.): a copy of the
parent with a fresh id and a quarter of full health; every other field —
including `lineage` — is inherited. -/
def mkChild (parent : Microbe) (newId : Nat) : Microbe :=
  { parent with id := newId, energy := HEALTH * (1 / 4) }

/-- The reproduction step (`src/main.rs` lines 382-401): when energy has
reached `HEALTH + HEALTH`, deduct `HEALTH` from the parent and emit four
clones, with fresh ids supplied by the caller (modeling
`Uuid::new_v4`). Returns the (possibly reduced) parent and the list of
offspring inserted into the next-tick tree. -/
def procreate (m : Microbe) (i1 i2 i3 i4 : Nat) : Microbe × List Microbe :=
  if HEALTH + HEALTH ≤ m.energy then
    let parent := { m with energy := m.energy - HEALTH }
    (parent, [mkChild parent i1, mkChild parent i2, mkChild parent i3, mkChild parent i4])
  else (m, [])

/-! ### Sensing (`World::get_nearby_microbes`, `src/main.rs` lines 411-445) -/

/-- The query rectangle built in `World::get_nearby_microbes`
(`src/main.rs` lines 420-425): origin `(x - range*0.5, y - range*0.5)`,
side `range` on both axes. -/
def senseQueryRect (pos : Vector2) (range : ℚ) : Rect :=
  ⟨pos.x - range * (1 / 2), pos.y - range * (1 / 2), range, range⟩

/-- The center of a rectangle (midpoint on both axes); measurement helper
for stating where the sensing query box sits. -/
def Rect.center (r : Rect) : Point := ⟨r.x + r.width / 2, r.y + r.height / 2⟩

/-- The filter predicate of `World::get_nearby_microbes` (`src/main.rs`
lines 427-443), with the transcendental `atan2` and `sqrt` supplied as
parameters: drop self and same-lineage agents, drop agents beyond
`range` (Euclidean distance), then accept if
`|atan2(dy, dx) - angle| % 2π < 0.4π` — the difference is **not**
reduced to a shortest signed angle. -/
def nearbyFilter (atan2F : ℚ → ℚ → ℚ) (sqrtF : ℚ → ℚ) (id lineage : Nat)
    (pos : Vector2) (angle range : ℚ) (m : Microbe) : Bool :=
  if id == m.id || lineage == m.lineage then false
  else
    let dx := m.transform.position.x - pos.x
    let dy := m.transform.position.y - pos.y
    let distance := sqrtF (dx * dx + dy * dy)
    if distance > range then false
    else
      let angleTo := atan2F dy dx
      let angleDiff := fmod |angleTo - angle| (2 * PI32)
      let cone := PI32 * (2 / 5)
      angleDiff < cone

/-- Model of `World::get_nearby_microbes` (`src/main.rs` lines 411-445): query the
spatial index with the shifted square region, then filter. -/
def getNearbyMicrobes (atan2F : ℚ → ℚ → ℚ) (sqrtF : ℚ → ℚ)
    (microbes : QuadTree Microbe) (id lineage : Nat) (pos : Vector2)
    (angle range : ℚ) : List Microbe :=
  (QuadTree.query Microbe.location microbes (senseQueryRect pos range)).filter
    (nearbyFilter atan2F sqrtF id lineage pos angle range)

/-- Rust float remainder with a positive modulus lies strictly between
`-b` and `b` (it keeps the dividend's sign, so it does **not** land in
`[0, b)` for negative dividends). -/
theorem fmod_bounds (a : ℚ) {b : ℚ} (hb : 0 < b) : -b < fmod a b ∧ fmod a b < b := by
  have hbne : b ≠ 0 := ne_of_gt hb
  have ha : a = b * (a / b) := by field_simp
  unfold fmod qtrunc
  split
  · have h1 : (⌊a / b⌋ : ℚ) ≤ a / b := Int.floor_le _
    have h2 : a / b < ⌊a / b⌋ + 1 := Int.lt_floor_add_one _
    constructor
    · nlinarith [mul_nonneg hb.le (sub_nonneg.mpr h1)]
    · nlinarith [mul_lt_mul_of_pos_left (show a / b - ⌊a / b⌋ < 1 by linarith) hb]
  · have h1 : (a / b : ℚ) ≤ ⌈a / b⌉ := Int.le_ceil _
    have h2 : (⌈a / b⌉ : ℚ) < a / b + 1 := Int.ceil_lt_add_one _
    constructor
    · nlinarith [mul_lt_mul_of_pos_left (show ⌈a / b⌉ - (a / b : ℚ) < 1 by linarith) hb]
    · nlinarith [mul_nonneg hb.le (sub_nonneg.mpr h1)]

/-- Concrete microbe used by counterexamples and witnesses. -/
def c5Microbe : Microbe := ⟨1, 2, ⟨⟨0, 0⟩, 0⟩, 3, 100, 0⟩

/-- A turn-left-only decision. -/
def ctrlLeft : Controls := ⟨false, true, false, false, false⟩

/-- Placeholder trigonometric oracle for concrete evaluations (its values
never influence the heading or the energy). -/
def zeroF : ℚ → ℚ := fun _ => 0

/-- C5 counterexample: A microbe with heading 0 that turns left ends
`Microbe::update` with heading −1, which is *not* in `[0, 2π)`: Rust's
`%` keeps the dividend's sign, so the claimed normalization into
`[0, 2π)` fails. -/
theorem heading_range_counterexample :
    (Microbe.update zeroF zeroF c5Microbe ctrlLeft).transform.rotation = -1
    ∧ ¬(0 ≤ (Microbe.update zeroF zeroF c5Microbe ctrlLeft).transform.rotation
        ∧ (Microbe.update zeroF zeroF c5Microbe ctrlLeft).transform.rotation
          < 2 * PI32) := by
  have h : (Microbe.update zeroF zeroF c5Microbe ctrlLeft).transform.rotation = -1 := by
    show fmod (0 - ROTATION_SPEED) (2 * PI32) = -1
    rw [fmod, qtrunc]
    norm_num [ROTATION_SPEED, PI32]
  refine ⟨h, ?_⟩
  rw [h]
  intro hr
  norm_num at hr

/-- C5 amended: After every `Microbe::update`, the heading lies in the
open interval `(-2π, 2π)` (with `2π` the `f32` constant `2.0 * PI`):
Rust's float `%` bounds the magnitude below the modulus but keeps the
dividend's sign, so the code does not re-normalize into `[0, 2π)`. -/
theorem heading_range (cosF sinF : ℚ → ℚ) (m : Microbe) (c : Controls) :
    -(2 * PI32) < (Microbe.update cosF sinF m c).transform.rotation
    ∧ (Microbe.update cosF sinF m c).transform.rotation < 2 * PI32 := by
  have hb : (0 : ℚ) < 2 * PI32 := by norm_num [PI32]
  exact fmod_bounds _ hb

/-- C10: `Microbe::update` deducts the fixed action cost exactly once
unconditionally — also for an all-false decision — and once more when
the decision has `eat == true`; movement and turning cost nothing extra
(those deductions are commented out in the source). -/
theorem tick_action_cost (cosF sinF : ℚ → ℚ) (m : Microbe) (c : Controls) :
    (Microbe.update cosF sinF m c).energy
      = m.energy - ACTION_ENERGY_CONSUMPTION
        - (if c.eat then ACTION_ENERGY_CONSUMPTION else 0) := by
  simp only [Microbe.update]
  split <;> ring

/-- C3: The Apply phase adds the flat `EAT_DAMAGE` reward exactly once
whenever the agent's `ate` entry is present — independent of its count
`k` — and subtracts `eatenCount × EAT_DAMAGE` when the `eaten` entry is
present; both absent entries leave energy unchanged. -/
theorem apply_eat_energy_spec (e : ℚ) (k j : Int) :
    applyEatEnergy e (some k) (some j) = e + EAT_DAMAGE - j * EAT_DAMAGE
    ∧ applyEatEnergy e (some k) none = e + EAT_DAMAGE
    ∧ applyEatEnergy e none (some j) = e - j * EAT_DAMAGE
    ∧ applyEatEnergy e none none = e :=
  ⟨rfl, rfl, rfl, rfl⟩

/-- Concrete reproducing parent (energy 200 = 2×HEALTH, lineage 7). -/
def c4Parent : Microbe := ⟨1, 7, ⟨⟨0, 0⟩, 0⟩, 3, 200, 5⟩

/-- C4 counterexample: The four offspring of a reproducing parent all
carry the parent's lineage identifier (7), contradicting the claim that
each offspring receives a lineage identifier distinct from the
parent's: only `id` is refreshed in the source. -/
theorem procreate_lineage_inherited :
    (procreate c4Parent 100 101 102 103).2.map Microbe.lineage = [7, 7, 7, 7]
    ∧ c4Parent.lineage = 7
    ∧ (procreate c4Parent 100 101 102 103).2.length = 4 := by
  refine ⟨?_, rfl, ?_⟩ <;> norm_num [procreate, mkChild, c4Parent, HEALTH]

/-- C4 amended: When post-apply energy has reached `2 × HEALTH`, the
parent loses exactly one `HEALTH` and exactly four offspring are
produced, each a clone of the parent with the supplied fresh identifier,
energy `HEALTH/4`, and — unlike the claim — the parent's own lineage
identifier, inherited unchanged along with every other field. -/
theorem procreate_spec (m : Microbe) (i1 i2 i3 i4 : Nat)
    (h : HEALTH + HEALTH ≤ m.energy) :
    (procreate m i1 i2 i3 i4).1 = { m with energy := m.energy - HEALTH }
    ∧ (procreate m i1 i2 i3 i4).2 =
      [{ m with id := i1, energy := HEALTH * (1 / 4) },
       { m with id := i2, energy := HEALTH * (1 / 4) },
       { m with id := i3, energy := HEALTH * (1 / 4) },
       { m with id := i4, energy := HEALTH * (1 / 4) }] := by
  rw [procreate, if_pos h]
  exact ⟨rfl, rfl⟩

/-- Witness for `procreate_spec` at the concrete parent `c4Parent`. -/
theorem procreate_spec_witness :
    (HEALTH + HEALTH ≤ c4Parent.energy)
    ∧ ((procreate c4Parent 100 101 102 103).1
        = { c4Parent with energy := c4Parent.energy - HEALTH }
    ∧ (procreate c4Parent 100 101 102 103).2 =
      [{ c4Parent with id := 100, energy := HEALTH * (1 / 4) },
       { c4Parent with id := 101, energy := HEALTH * (1 / 4) },
       { c4Parent with id := 102, energy := HEALTH * (1 / 4) },
       { c4Parent with id := 103, energy := HEALTH * (1 / 4) }]) :=
  ⟨by norm_num [HEALTH, c4Parent],
    procreate_spec c4Parent 100 101 102 103 (by norm_num [HEALTH, c4Parent])⟩

/-- C6 counterexample: At `p = (0,0)` and `range = 10` the sensing
query rectangle has center exactly `p = (0,0)` — not `(5,5)` as the
claimed shift by half the range toward positive x/y would give: the
origin offset of `-range/2` on both axes *is* the centered placement. -/
theorem sense_rect_centered_counterexample :
    (senseQueryRect ⟨0, 0⟩ 10).center = (⟨0, 0⟩ : Point)
    ∧ (senseQueryRect ⟨0, 0⟩ 10).center ≠ (⟨5, 5⟩ : Point) := by
  constructor <;> norm_num [senseQueryRect, Rect.center, Point.mk.injEq]

/-- C6 amended: For every call, the rectangle passed to the
spatial-index query is the square of side `range` whose origin is offset
by `-range/2` on both axes — i.e. it is *exactly centered* on the
sensing position, not shifted relative to the centered placement. -/
theorem sense_rect_spec (pos : Vector2) (range : ℚ) :
    (senseQueryRect pos range).center = (⟨pos.x, pos.y⟩ : Point)
    ∧ (senseQueryRect pos range).width = range
    ∧ (senseQueryRect pos range).height = range
    ∧ (senseQueryRect pos range).x = pos.x - range * (1 / 2)
    ∧ (senseQueryRect pos range).y = pos.y - range * (1 / 2) := by
  refine ⟨?_, rfl, rfl, rfl, rfl⟩
  simp only [senseQueryRect, Rect.center, Point.mk.injEq]
  constructor <;> ring

/-- Lemma: `bump` raises the bumped key's count by one and leaves others alone. -/
theorem countOf_bump (m : Nat → Option Int) (k j : Nat) :
    countOf (bump m k) j = countOf m j + if j = k then 1 else 0 := by
  unfold countOf bump
  by_cases h : j = k
  · subst h
    simp
  · simp [h]

/-- The pair step bumps both counters exactly when the consumption
condition of the code holds. -/
theorem resolvePair_eq (entries : List (Nat × Controls × List Nat))
    (energyOf : Nat → ℚ) (acc : (Nat → Option Int) × (Nat → Option Int))
    (id p : Nat) :
    resolvePair entries energyOf acc id p =
      if consumesB entries energyOf id p then (bump acc.1 p, bump acc.2 id)
      else acc := by
  unfold resolvePair consumesB
  cases lookupControls entries p with
  | none => simp
  | some pce =>
    by_cases hp : pce.1.eat
    · simp only [hp, if_true]
      by_cases he : energyOf id > energyOf p <;> simp [he]
    · simp [hp]

/-- Inner-loop characterization for the `eaten` counter. -/
theorem foldl_resolvePair_eaten (entries : List (Nat × Controls × List Nat))
    (energyOf : Nat → ℚ) (id : Nat) (es : List Nat)
    (acc : (Nat → Option Int) × (Nat → Option Int)) (k : Nat) :
    countOf (es.foldl (fun acc2 p => resolvePair entries energyOf acc2 id p) acc).1 k
      = countOf acc.1 k
        + ((es.countP (fun p => p == k && consumesB entries energyOf id p) : Nat) : Int) := by
  induction es generalizing acc with
  | nil => simp
  | cons p es ih =>
    rw [List.foldl_cons, ih, resolvePair_eq, List.countP_cons]
    by_cases hc : consumesB entries energyOf id p = true
    · rw [if_pos hc]
      show countOf (bump acc.1 p) k + _ = _
      rw [countOf_bump]
      by_cases hk : p = k
      · subst hk
        simp [hc]
        ring
      · simp [hk, Ne.symm hk]
    · rw [if_neg hc]
      simp only [Bool.not_eq_true] at hc
      simp [hc]

/-- Inner-loop characterization for the `ate` counter. -/
theorem foldl_resolvePair_ate (entries : List (Nat × Controls × List Nat))
    (energyOf : Nat → ℚ) (id : Nat) (es : List Nat)
    (acc : (Nat → Option Int) × (Nat → Option Int)) (k : Nat) :
    countOf (es.foldl (fun acc2 p => resolvePair entries energyOf acc2 id p) acc).2 k
      = countOf acc.2 k
        + (if id = k then ((es.countP (consumesB entries energyOf id) : Nat) : Int)
          else 0) := by
  induction es generalizing acc with
  | nil => simp
  | cons p es ih =>
    rw [List.foldl_cons, ih, resolvePair_eq, List.countP_cons]
    by_cases hc : consumesB entries energyOf id p = true
    · rw [if_pos hc]
      show countOf (bump acc.2 id) k + _ = _
      rw [countOf_bump]
      by_cases hk : id = k
      · subst hk
        simp [hc, eq_comm]
        ring
      · simp [hk, Ne.symm hk]
    · rw [if_neg hc]
      simp only [Bool.not_eq_true] at hc
      simp [hc]

/-- Per-agent characterization for the `eaten` counter. -/
theorem resolveAgent_eaten (entries : List (Nat × Controls × List Nat))
    (energyOf : Nat → ℚ) (acc : (Nat → Option Int) × (Nat → Option Int))
    (e : Nat × Controls × List Nat) (k : Nat) :
    countOf (resolveAgent entries energyOf acc e).1 k
      = countOf acc.1 k
        + (if e.2.1.eat then
            ((e.2.2.countP (fun p => p == k && consumesB entries energyOf e.1 p) : Nat) : Int)
          else 0) := by
  unfold resolveAgent
  by_cases he : e.2.1.eat <;> simp [he, foldl_resolvePair_eaten]

/-- Per-agent characterization for the `ate` counter. -/
theorem resolveAgent_ate (entries : List (Nat × Controls × List Nat))
    (energyOf : Nat → ℚ) (acc : (Nat → Option Int) × (Nat → Option Int))
    (e : Nat × Controls × List Nat) (k : Nat) :
    countOf (resolveAgent entries energyOf acc e).2 k
      = countOf acc.2 k
        + (if e.1 = k ∧ e.2.1.eat then
            ((e.2.2.countP (consumesB entries energyOf e.1) : Nat) : Int)
          else 0) := by
  unfold resolveAgent
  by_cases he : e.2.1.eat
  · rw [if_pos he, foldl_resolvePair_ate]
    by_cases hk : e.1 = k <;> simp [hk, he]
  · simp [he]

/-- Outer-loop characterization for the `eaten` counter. -/
theorem foldl_resolveAgent_eaten (entries : List (Nat × Controls × List Nat))
    (energyOf : Nat → ℚ) (l : List (Nat × Controls × List Nat))
    (acc : (Nat → Option Int) × (Nat → Option Int)) (k : Nat) :
    countOf (l.foldl (resolveAgent entries energyOf) acc).1 k
      = countOf acc.1 k
        + (l.map (fun e =>
            if e.2.1.eat then
              ((e.2.2.countP (fun p => p == k && consumesB entries energyOf e.1 p) : Nat) : Int)
            else 0)).sum := by
  induction l generalizing acc with
  | nil => simp
  | cons e l ih =>
    rw [List.foldl_cons, ih, resolveAgent_eaten]
    simp
    ring

/-- Outer-loop characterization for the `ate` counter. -/
theorem foldl_resolveAgent_ate (entries : List (Nat × Controls × List Nat))
    (energyOf : Nat → ℚ) (l : List (Nat × Controls × List Nat))
    (acc : (Nat → Option Int) × (Nat → Option Int)) (k : Nat) :
    countOf (l.foldl (resolveAgent entries energyOf) acc).2 k
      = countOf acc.2 k
        + (l.map (fun e =>
            if e.1 = k ∧ e.2.1.eat then
              ((e.2.2.countP (consumesB entries energyOf e.1) : Nat) : Int)
            else 0)).sum := by
  induction l generalizing acc with
  | nil => simp
  | cons e l ih =>
    rw [List.foldl_cons, ih, resolveAgent_ate]
    simp
    ring

/-- C2: After the ResolveEating phase, each agent's `eaten` counter
equals the number of pairs (attacker `A` with `Decision.eat == true`,
occurrence of the agent in `A`'s recorded forward-close target list)
whose consumption condition holds, and its `ate` counter equals the
number of consuming pairs of its own entry; the condition `consumesB`
is: the prey has a recorded decision, and either the prey also intends
to eat and the attacker's pre-tick energy is strictly greater (equal
energies consume nothing), or the prey does not intend to eat, in which
case it is always consumed.  Counters thus accumulate over all pairs
independently. -/
theorem resolve_eating_counts (entries : List (Nat × Controls × List Nat))
    (energyOf : Nat → ℚ) (k : Nat) :
    countOf (resolveEating entries energyOf).1 k = eatenSpec entries energyOf k
    ∧ countOf (resolveEating entries energyOf).2 k = ateSpec entries energyOf k := by
  unfold resolveEating eatenSpec ateSpec
  rw [foldl_resolveAgent_eaten, foldl_resolveAgent_ate]
  constructor
  · simp [countOf]
  · simp only [countOf]
    norm_num

/-- The world bounds from `World::new` (`src/main.rs` lines 176-179):
`Rect::new(-BOX_SIZE, -BOX_SIZE, BOX_SIZE * 2, BOX_SIZE * 2)` with
capacity 10. -/
def worldBounds : Rect := ⟨-BOX_SIZE, -BOX_SIZE, BOX_SIZE * 2, BOX_SIZE * 2⟩

/-- A fixture microbe at the given location (id 1, lineage 2, heading 0). -/
def fixtureMicrobe (mx my : ℚ) : Microbe := ⟨1, 2, ⟨⟨mx, my⟩, 0⟩, 3, 100, 0⟩

/-- A world-bounds tree holding exactly one fixture microbe. -/
def fixtureTree (mx my : ℚ) : QuadTree Microbe :=
  (QuadTree.insert Microbe.location (QuadTree.new worldBounds 10)
    (fixtureMicrobe mx my)).1

/-- Inserting a contained fixture microbe into the fresh world tree yields
the one-leaf tree holding it. -/
theorem fixtureTree_eq (mx my : ℚ)
    (h : worldBounds.containsPoint ⟨mx, my⟩ = true) :
    fixtureTree mx my = ⟨.leaf worldBounds 10 [fixtureMicrobe mx my]⟩ := by
  unfold fixtureTree QuadTree.insert QuadTree.new
  rw [QuadTreeNode.insertAux]
  rw [show Microbe.location (fixtureMicrobe mx my) = ⟨mx, my⟩ from rfl, h]
  simp

/-- A fixture microbe inside the query box and inside the sensing cone is
returned by `World::get_nearby_microbes` from the one-microbe world. -/
theorem fixture_detected (atan2F : ℚ → ℚ → ℚ) (sqrtF : ℚ → ℚ)
    (mx my angle : ℚ)
    (hin : worldBounds.containsPoint ⟨mx, my⟩ = true)
    (hrect : (senseQueryRect ⟨0, 0⟩ 10).containsPoint ⟨mx, my⟩ = true)
    (hint : worldBounds.intersects (senseQueryRect ⟨0, 0⟩ 10) = true)
    (hsq : sqrtF (mx * mx + my * my) ≤ 10)
    (hcone : fmod |atan2F my mx - angle| (2 * PI32) < PI32 * (2 / 5)) :
    getNearbyMicrobes atan2F sqrtF (fixtureTree mx my) 999 998 ⟨0, 0⟩ angle 10
      = [fixtureMicrobe mx my] := by
  have hf : nearbyFilter atan2F sqrtF 999 998 ⟨0, 0⟩ angle 10 (fixtureMicrobe mx my)
      = true := by
    simp only [nearbyFilter, fixtureMicrobe]
    norm_num
    exact ⟨hsq, hcone⟩
  rw [getNearbyMicrobes, fixtureTree_eq mx my hin]
  rw [show QuadTree.query Microbe.location
      (⟨.leaf worldBounds 10 [fixtureMicrobe mx my]⟩ : QuadTree Microbe)
      (senseQueryRect ⟨0, 0⟩ 10)
    = QuadTreeNode.queryNode Microbe.location (senseQueryRect ⟨0, 0⟩ 10)
        (.leaf worldBounds 10 [fixtureMicrobe mx my]) from rfl]
  rw [QuadTreeNode.queryNode, if_pos hint]
  have hloc : Microbe.location (fixtureMicrobe mx my) = ⟨mx, my⟩ := rfl
  simp [List.filter, hloc, hrect, hf]

/-- C7: Provided the `atan2`/`sqrt` models return the IEEE-mandated
values at the points the fixtures touch, the sensing filter accepts a
candidate that passed the self/lineage and Euclidean-distance checks
**iff** `|atan2(dy, dx) - angle| mod 2π < 0.4π` — with the plain
absolute difference, never unwrapped to a shortest signed angle — and
the four documented fixtures hold: with range 10 and a sensor at the
origin, an agent at (1,0) is detected at angle 0, at (−1,0) at angle π,
at (0,1) at angle π/2, and at (0,−1) at angle −π/2. -/
theorem sensing_cone_spec (atan2F : ℚ → ℚ → ℚ) (sqrtF : ℚ → ℚ)
    (hsqrt : sqrtF 1 = 1) (h0 : atan2F 0 1 = 0) (hpi : atan2F 0 (-1) = PI32)
    (hhalf : atan2F 1 0 = PI32 / 2) (hneg : atan2F (-1) 0 = -(PI32 / 2)) :
    (∀ (id lineage : Nat) (pos : Vector2) (angle range : ℚ) (m : Microbe),
      (id == m.id || lineage == m.lineage) = false →
      ¬(sqrtF ((m.transform.position.x - pos.x) * (m.transform.position.x - pos.x)
          + (m.transform.position.y - pos.y) * (m.transform.position.y - pos.y))
        > range) →
      (nearbyFilter atan2F sqrtF id lineage pos angle range m = true ↔
        fmod |atan2F (m.transform.position.y - pos.y) (m.transform.position.x - pos.x)
            - angle| (2 * PI32) < PI32 * (2 / 5)))
    ∧ getNearbyMicrobes atan2F sqrtF (fixtureTree 1 0) 999 998 ⟨0, 0⟩ 0 10
        = [fixtureMicrobe 1 0]
    ∧ getNearbyMicrobes atan2F sqrtF (fixtureTree (-1) 0) 999 998 ⟨0, 0⟩ PI32 10
        = [fixtureMicrobe (-1) 0]
    ∧ getNearbyMicrobes atan2F sqrtF (fixtureTree 0 1) 999 998 ⟨0, 0⟩ (PI32 / 2) 10
        = [fixtureMicrobe 0 1]
    ∧ getNearbyMicrobes atan2F sqrtF (fixtureTree 0 (-1)) 999 998 ⟨0, 0⟩
        (-(PI32 / 2)) 10 = [fixtureMicrobe 0 (-1)] := by
  refine ⟨?_, ?_, ?_, ?_, ?_⟩
  · intro id lineage pos angle range m hid hdist
    unfold nearbyFilter
    rw [if_neg (by simp [hid])]
    rw [if_neg (by simpa using hdist)]
    simp
  · exact fixture_detected atan2F sqrtF 1 0 0
      (by norm_num [worldBounds, Rect.containsPoint, BOX_SIZE])
      (by norm_num [senseQueryRect, Rect.containsPoint])
      (by norm_num [worldBounds, senseQueryRect, Rect.intersects, BOX_SIZE])
      (by rw [show ((1 : ℚ) * 1 + 0 * 0) = 1 by norm_num, hsqrt]; norm_num)
      (by rw [h0]; norm_num [fmod, qtrunc, PI32])
  · exact fixture_detected atan2F sqrtF (-1) 0 PI32
      (by norm_num [worldBounds, Rect.containsPoint, BOX_SIZE])
      (by norm_num [senseQueryRect, Rect.containsPoint])
      (by norm_num [worldBounds, senseQueryRect, Rect.intersects, BOX_SIZE])
      (by rw [show ((-1 : ℚ) * (-1) + 0 * 0) = 1 by norm_num, hsqrt]; norm_num)
      (by rw [hpi]; norm_num [fmod, qtrunc, PI32])
  · exact fixture_detected atan2F sqrtF 0 1 (PI32 / 2)
      (by norm_num [worldBounds, Rect.containsPoint, BOX_SIZE])
      (by norm_num [senseQueryRect, Rect.containsPoint])
      (by norm_num [worldBounds, senseQueryRect, Rect.intersects, BOX_SIZE])
      (by rw [show ((0 : ℚ) * 0 + 1 * 1) = 1 by norm_num, hsqrt]; norm_num)
      (by rw [hhalf]; norm_num [fmod, qtrunc, PI32])
  · exact fixture_detected atan2F sqrtF 0 (-1) (-(PI32 / 2))
      (by norm_num [worldBounds, Rect.containsPoint, BOX_SIZE])
      (by norm_num [senseQueryRect, Rect.containsPoint])
      (by norm_num [worldBounds, senseQueryRect, Rect.intersects, BOX_SIZE])
      (by rw [show ((0 : ℚ) * 0 + (-1) * (-1)) = 1 by norm_num, hsqrt]; norm_num)
      (by rw [hneg]; norm_num [fmod, qtrunc, PI32])

/-- Sample `atan2` model agreeing with IEEE `atan2f` on the four axis
directions the fixtures use. -/
def atan2Sample (y x : ℚ) : ℚ :=
  if 0 < x then 0
  else if x < 0 then PI32
  else if 0 < y then PI32 / 2
  else if y < 0 then -(PI32 / 2)
  else 0

/-- Sample `sqrt` model, exact at 1. -/
def sqrtSample (q : ℚ) : ℚ := if q = 1 then 1 else 0

/-- Witness for `sensing_cone_spec`, instantiated with the sample
`atan2`/`sqrt` models. -/
theorem sensing_cone_spec_witness :
    (sqrtSample 1 = 1 ∧ atan2Sample 0 1 = 0 ∧ atan2Sample 0 (-1) = PI32
      ∧ atan2Sample 1 0 = PI32 / 2 ∧ atan2Sample (-1) 0 = -(PI32 / 2))
    ∧ ((∀ (id lineage : Nat) (pos : Vector2) (angle range : ℚ) (m : Microbe),
      (id == m.id || lineage == m.lineage) = false →
      ¬(sqrtSample ((m.transform.position.x - pos.x) * (m.transform.position.x - pos.x)
          + (m.transform.position.y - pos.y) * (m.transform.position.y - pos.y))
        > range) →
      (nearbyFilter atan2Sample sqrtSample id lineage pos angle range m = true ↔
        fmod |atan2Sample (m.transform.position.y - pos.y)
            (m.transform.position.x - pos.x) - angle| (2 * PI32) < PI32 * (2 / 5)))
    ∧ getNearbyMicrobes atan2Sample sqrtSample (fixtureTree 1 0) 999 998 ⟨0, 0⟩ 0 10
        = [fixtureMicrobe 1 0]
    ∧ getNearbyMicrobes atan2Sample sqrtSample (fixtureTree (-1) 0) 999 998 ⟨0, 0⟩
        PI32 10 = [fixtureMicrobe (-1) 0]
    ∧ getNearbyMicrobes atan2Sample sqrtSample (fixtureTree 0 1) 999 998 ⟨0, 0⟩
        (PI32 / 2) 10 = [fixtureMicrobe 0 1]
    ∧ getNearbyMicrobes atan2Sample sqrtSample (fixtureTree 0 (-1)) 999 998 ⟨0, 0⟩
        (-(PI32 / 2)) 10 = [fixtureMicrobe 0 (-1)]) :=
  ⟨⟨by norm_num [sqrtSample], by norm_num [atan2Sample],
    by norm_num [atan2Sample], by norm_num [atan2Sample],
    by norm_num [atan2Sample]⟩,
    sensing_cone_spec atan2Sample sqrtSample (by norm_num [sqrtSample])
      (by norm_num [atan2Sample]) (by norm_num [atan2Sample])
      (by norm_num [atan2Sample]) (by norm_num [atan2Sample])⟩

end Microswarm
